import Mathlib

/-!
Verification development for the passwordle backend (src/src/game.rs,
src/src/error.rs, src/src/main.rs).

Strings that the Rust code manipulates byte-wise (guesses, salts, digests)
are embedded as lists of natural numbers (their UTF-8 bytes); Redis key
names, which are only ever compared for equality, stay Lean strings.
Randomness (salt, password, uuid) is abstracted as explicit parameters of
the operations that draw it.  The Redis store is modelled as an association
list from key strings to typed values together with an optional
time-to-live; a read that decodes a value at the wrong type is modelled as
a decode failure (InternalServerError), matching how redis-rs surfaces
conversion errors.  Transport failures are environmental and are not
modelled.
-/

namespace Passwordle

/-- Embeds enum Match of src/src/game.rs: per-position classification. -/
inductive Match where
  | Exact
  | Close
  | Wrong
deriving DecidableEq

/-- Embeds struct GuessResult of src/src/game.rs. -/
structure GuessResult where
  hash : List Nat
  guess : List Match
  key : Option String
deriving DecidableEq

/-- Embeds enum AppError of src/src/error.rs. -/
inductive AppError where
  | GameNotFound
  | InternalServerError
  | BadRequest
deriving DecidableEq

/-- Embeds struct GameInfo of src/src/game.rs. -/
structure GameInfo where
  salt : List Nat
  guess_count : Nat
deriving DecidableEq

/-- Embeds struct GameCreationInfo of src/src/game.rs. -/
structure GameCreationInfo where
  salt : List Nat
  guess_count : Nat
  id : String
deriving DecidableEq

/-- Constant MAX_GUESS of src/src/game.rs. -/
def MAX_GUESS : Nat := 64

/-- Constant PASSWORD_LENGTH of src/src/game.rs. -/
def PASSWORD_LENGTH : Nat := 8

/-- Constant SALT_LENGTH of src/src/game.rs. -/
def SALT_LENGTH : Nat := 8

/-- Constant GAME_EXPIRE of src/src/game.rs. -/
def GAME_EXPIRE : Nat := 60 * 60 * 24

/-- First pass of check_guess (src/src/game.rs, the loop headed by the
comment about exact matches): walks guess and solution bytes in parallel;
at every position where they agree the solution byte is overwritten with
the sentinel 0 and the classification is Exact, otherwise the byte is kept
and the classification stays at its initialisation Wrong.  Returns the
updated working copy of the solution together with the classification
array. -/
def exactPass : List Nat → List Nat → List Nat × List Match
  | b :: bs, s :: ss =>
    let r := exactPass bs ss
    if s = b then (0 :: r.1, Match.Exact :: r.2) else (s :: r.1, Match.Wrong :: r.2)
  | _, _ => ([], [])

/-- Embeds the body of the close pass at one guess byte: the call
solution.iter().position(|x| x == b) followed by writing the sentinel 0 at
the found index.  Returns the updated solution when a position was found. -/
def consumeFirst (b : Nat) : List Nat → Option (List Nat)
  | [] => none
  | s :: ss => if s = b then some (0 :: ss) else (consumeFirst b ss).map (s :: ·)

/-- Second pass of check_guess (src/src/game.rs, the loop headed by the
comment about amber matches): positions already classified are kept; a
still-Wrong position claims the first equal byte of the working solution,
consuming it. -/
def closePass : List Nat → List Nat → List Match → List Match
  | sol, b :: bs, d :: ds =>
    if d = Match.Wrong then
      match consumeFirst b sol with
      | some sol2 => Match.Close :: closePass sol2 bs ds
      | none => Match.Wrong :: closePass sol bs ds
    else d :: closePass sol bs ds
  | _, _, _ => []

/-- Embeds fn check_guess of src/src/game.rs.  The Rust function asserts
that both digests have equal length; here the function is total and the
length requirement appears as a hypothesis of the theorems about it. -/
def check_guess (input solution : List Nat) : GuessResult :=
  let ep := exactPass input solution
  let diff := closePass ep.1 input ep.2
  { hash := input
    guess := diff
    key := if diff.all (fun v => v = Match.Exact) then some "31abhtykwu" else none }

/-- Number of positions of the classification list whose guess byte is c
and whose classification is Exact or Close.  This is the quantity bounded
by the letter-frequency property of the spec. -/
def markedCount (g : List Nat) (ds : List Match) (c : Nat) : Nat :=
  (List.zip g ds).countP (fun x => decide (x.1 = c ∧ x.2 ≠ Match.Wrong))

/-! MD5 (crate md5, RFC 1321) over byte lists, with 32-bit words as
natural numbers reduced modulo 2 ^ 32. -/

/-- Rotate a 32-bit word left by n bits. -/
def rotl32 (x n : Nat) : Nat := ((x <<< n) ||| (x >>> (32 - n))) % 4294967296

/-- Addition of 32-bit words. -/
def addm (a b : Nat) : Nat := (a + b) % 4294967296

/-- Bitwise complement of a 32-bit word. -/
def mnot (x : Nat) : Nat := x ^^^ 4294967295

/-- Round function F of MD5. -/
def mF (b c d : Nat) : Nat := (b &&& c) ||| (mnot b &&& d)

/-- Round function G of MD5. -/
def mG (b c d : Nat) : Nat := (d &&& b) ||| (mnot d &&& c)

/-- Round function H of MD5. -/
def mH (b c d : Nat) : Nat := b ^^^ c ^^^ d

/-- Round function I of MD5. -/
def mI (b c d : Nat) : Nat := c ^^^ (b ||| mnot d)

/-- The 64 sine-derived constants of MD5. -/
def md5K : List Nat :=
  [0xd76aa478, 0xe8c7b756, 0x242070db, 0xc1bdceee,
   0xf57c0faf, 0x4787c62a, 0xa8304613, 0xfd469501,
   0x698098d8, 0x8b44f7af, 0xffff5bb1, 0x895cd7be,
   0x6b901122, 0xfd987193, 0xa679438e, 0x49b40821,
   0xf61e2562, 0xc040b340, 0x265e5a51, 0xe9b6c7aa,
   0xd62f105d, 0x02441453, 0xd8a1e681, 0xe7d3fbc8,
   0x21e1cde6, 0xc33707d6, 0xf4d50d87, 0x455a14ed,
   0xa9e3e905, 0xfcefa3f8, 0x676f02d9, 0x8d2a4c8a,
   0xfffa3942, 0x8771f681, 0x6d9d6122, 0xfde5380c,
   0xa4beea44, 0x4bdecfa9, 0xf6bb4b60, 0xbebfbc70,
   0x289b7ec6, 0xeaa127fa, 0xd4ef3085, 0x04881d05,
   0xd9d4d039, 0xe6db99e5, 0x1fa27cf8, 0xc4ac5665,
   0xf4292244, 0x432aff97, 0xab9423a7, 0xfc93a039,
   0x655b59c3, 0x8f0ccc92, 0xffeff47d, 0x85845dd1,
   0x6fa87e4f, 0xfe2ce6e0, 0xa3014314, 0x4e0811a1,
   0xf7537e82, 0xbd3af235, 0x2ad7d2bb, 0xeb86d391]

/-- The 64 per-round left-rotation amounts of MD5. -/
def md5S : List Nat :=
  [7, 12, 17, 22, 7, 12, 17, 22, 7, 12, 17, 22, 7, 12, 17, 22,
   5, 9, 14, 20, 5, 9, 14, 20, 5, 9, 14, 20, 5, 9, 14, 20,
   4, 11, 16, 23, 4, 11, 16, 23, 4, 11, 16, 23, 4, 11, 16, 23,
   6, 10, 15, 21, 6, 10, 15, 21, 6, 10, 15, 21, 6, 10, 15, 21]

/-- The bit length of the message, little-endian over 8 bytes. -/
def lenBytes8 (n : Nat) : List Nat :=
  [n % 256, n / 256 % 256, n / 65536 % 256, n / 16777216 % 256,
   n / 4294967296 % 256, n / 1099511627776 % 256,
   n / 281474976710656 % 256, n / 72057594037927936 % 256]

/-- MD5 padding: a 0x80 byte, zeros up to 56 modulo 64, then the bit
length. -/
def padMsg (msg : List Nat) : List Nat :=
  msg ++ [128] ++ List.replicate ((120 - (msg.length + 1) % 64) % 64) 0
      ++ lenBytes8 (msg.length * 8)

/-- Splits the padded message into 64-byte blocks. -/
def toChunks (l : List Nat) : List (List Nat) :=
  if h : l = [] then [] else l.take 64 :: toChunks (l.drop 64)
termination_by l.length
decreasing_by
  simp only [List.length_drop]
  exact Nat.sub_lt (List.length_pos.mpr h) (by norm_num)

/-- Word i of a 64-byte block, little-endian. -/
def leWord (c : List Nat) (i : Nat) : Nat :=
  c.getD (4 * i) 0 + 256 * c.getD (4 * i + 1) 0 + 65536 * c.getD (4 * i + 2) 0
    + 16777216 * c.getD (4 * i + 3) 0

/-- One of the 64 MD5 operations on the four-word state. -/
def md5Round (chunk : List Nat) (st : Nat × Nat × Nat × Nat) (i : Nat) :
    Nat × Nat × Nat × Nat :=
  let a := st.1
  let b := st.2.1
  let c := st.2.2.1
  let d := st.2.2.2
  let f := if i < 16 then mF b c d
           else if i < 32 then mG b c d
           else if i < 48 then mH b c d
           else mI b c d
  let g := if i < 16 then i
           else if i < 32 then (5 * i + 1) % 16
           else if i < 48 then (3 * i + 5) % 16
           else 7 * i % 16
  let tmp := addm (addm (addm a f) (md5K.getD i 0)) (leWord chunk g)
  (d, addm b (rotl32 tmp (md5S.getD i 0)), b, c)

/-- Processes one 64-byte block. -/
def md5Chunk (st : Nat × Nat × Nat × Nat) (chunk : List Nat) :
    Nat × Nat × Nat × Nat :=
  let r := (List.range 64).foldl (md5Round chunk) st
  (addm st.1 r.1, addm st.2.1 r.2.1, addm st.2.2.1 r.2.2.1, addm st.2.2.2 r.2.2.2)

/-- A 32-bit word as four little-endian bytes. -/
def wordLE (w : Nat) : List Nat :=
  [w % 256, w / 256 % 256, w / 65536 % 256, w / 16777216 % 256]

/-- The MD5 digest (16 bytes) of a byte list. -/
def md5 (msg : List Nat) : List Nat :=
  let st := (toChunks (padMsg msg)).foldl md5Chunk
    (0x67452301, 0xefcdab89, 0x98badcfe, 0x10325476)
  wordLE st.1 ++ wordLE st.2.1 ++ wordLE st.2.2.1 ++ wordLE st.2.2.2

/-! Base64 (crate base64, fn encode: standard alphabet with padding),
producing the ASCII bytes of the encoding. -/

/-- The standard base64 alphabet as ASCII codes. -/
def b64Alphabet : List Nat :=
  (List.range 26).map (fun i => 65 + i) ++ (List.range 26).map (fun i => 97 + i)
    ++ (List.range 10).map (fun i => 48 + i) ++ [43, 47]

/-- ASCII code of base64 digit i. -/
def b64Char (i : Nat) : Nat := b64Alphabet.getD i 0

/-- Standard base64 encoding with padding (61 is the ASCII code of the
equals sign). -/
def b64encode : List Nat → List Nat
  | [] => []
  | [a] => [b64Char (a / 4), b64Char (a % 4 * 16), 61, 61]
  | [a, b] => [b64Char (a / 4), b64Char (a % 4 * 16 + b / 16), b64Char (b % 16 * 4), 61]
  | a :: b :: c :: rest =>
    b64Char (a / 4) :: b64Char (a % 4 * 16 + b / 16)
      :: b64Char (b % 16 * 4 + c / 64) :: b64Char (c % 64) :: b64encode rest

/-! The Redis store model. -/

/-- A stored Redis value: the program stores the guess counter as an
integer and salt and password digest as strings. -/
inductive RVal where
  | int (n : Nat)
  | str (s : List Nat)
deriving DecidableEq

/-- One stored key with its value and optional time-to-live in seconds. -/
structure Entry where
  key : String
  val : RVal
  ttl : Option Nat
deriving DecidableEq

/-- The store: an association list of entries, at most one per key. -/
abbrev Store := List Entry

/-- Redis GET. -/
def sget : Store → String → Option RVal
  | [], _ => none
  | e :: rest, k => if e.key = k then some e.val else sget rest k

/-- Redis SETEX (set with expiry): overwrites the entry of the key or
appends a fresh one. -/
def sset : Store → String → RVal → Option Nat → Store
  | [], k, v, t => [⟨k, v, t⟩]
  | e :: rest, k, v, t =>
    if e.key = k then ⟨k, v, t⟩ :: rest else e :: sset rest k v t

/-- Value update keeping the time-to-live, as INCR does; a missing key is
created without expiry. -/
def supd : Store → String → RVal → Store
  | [], k, v => [⟨k, v, none⟩]
  | e :: rest, k, v =>
    if e.key = k then ⟨k, v, e.ttl⟩ :: rest else e :: supd rest k v

/-- Redis DEL. -/
def sdel : Store → String → Store
  | [], _ => []
  | e :: rest, k => if e.key = k then sdel rest k else e :: sdel rest k

/-- Redis INCR: a missing key is created holding 1; an integer is
incremented keeping its expiry; a non-integer value is a WRONGTYPE error,
which the callers map to InternalServerError. -/
def sincr (st : Store) (k : String) : Except Unit (Store × Nat) :=
  match sget st k with
  | none => .ok (supd st k (.int 1), 1)
  | some (.int n) => .ok (supd st k (.int (n + 1)), n + 1)
  | some (.str _) => .error ()

/-- Key game:<id>:guess_count of src/src/game.rs. -/
def countKey (id : String) : String := "game:" ++ id ++ ":guess_count"

/-- Key game:<id>:salt of src/src/game.rs. -/
def saltKey (id : String) : String := "game:" ++ id ++ ":salt"

/-- Key game:<id>:password of src/src/game.rs. -/
def passwordKey (id : String) : String := "game:" ++ id ++ ":password"

/-- Embeds fn get_game_info of src/src/game.rs: a pipelined GET of the
guess counter and the salt.  The operation issues no write, so the store
component of the result is the input store. -/
def get_game_info (st : Store) (id : String) :
    Store × Except AppError GameInfo :=
  match sget st (countKey id), sget st (saltKey id) with
  | some (RVal.str _), _ => (st, .error AppError.InternalServerError)
  | _, some (RVal.int _) => (st, .error AppError.InternalServerError)
  | some (RVal.int n), some (RVal.str s) => (st, .ok ⟨s, n⟩)
  | _, _ => (st, .error AppError.GameNotFound)

/-- Embeds fn create_game of src/src/game.rs.  The randomly drawn salt,
password and uuid are parameters; the password digest is the base64
encoding of the MD5 of password bytes followed by salt bytes, and the
three keys are written with expiry GAME_EXPIRE by one pipeline, in the
order guess_count, salt, password. -/
def create_game (st : Store) (id : String) (salt password : List Nat) :
    Store × GameCreationInfo :=
  let pwDigest := b64encode (md5 (password ++ salt))
  let st1 := sset st (countKey id) (.int 0) (some GAME_EXPIRE)
  let st2 := sset st1 (saltKey id) (.str salt) (some GAME_EXPIRE)
  let st3 := sset st2 (passwordKey id) (.str pwDigest) (some GAME_EXPIRE)
  (st3, ⟨salt, 0, id⟩)

/-- Embeds fn make_guess of src/src/game.rs: length gate, pipelined
INCR + GET + GET, ceiling check with full deletion, digest computation
with the defensive length check, and delegation to check_guess. -/
def make_guess (st : Store) (id : String) (guess : List Nat) :
    Store × Except AppError GuessResult :=
  if guess.length ≠ PASSWORD_LENGTH then (st, .error AppError.BadRequest)
  else
    match sincr st (countKey id) with
    | .error _ => (st, .error AppError.InternalServerError)
    | .ok (st1, guess_count) =>
      match sget st1 (saltKey id), sget st1 (passwordKey id) with
      | some (RVal.str salt), some (RVal.str password) =>
        if guess_count > MAX_GUESS then
          (sdel (sdel (sdel st1 (countKey id)) (saltKey id)) (passwordKey id),
           .error AppError.GameNotFound)
        else
          let guessDigest := b64encode (md5 (guess ++ salt))
          if guessDigest.length ≠ password.length then
            (st1, .error AppError.BadRequest)
          else
            (st1, .ok (check_guess guessDigest password))
      | none, _ => (st1, .error AppError.GameNotFound)
      | _, none => (st1, .error AppError.GameNotFound)
      | _, _ => (st1, .error AppError.InternalServerError)

/-! Helper lemmas on the two passes of check_guess. -/

theorem check_guess_guess (g p : List Nat) :
    (check_guess g p).guess = closePass (exactPass g p).1 g (exactPass g p).2 := rfl

theorem check_guess_key_eq (g p : List Nat) :
    (check_guess g p).key =
      if (check_guess g p).guess.all (fun v => v = Match.Exact)
      then some "31abhtykwu" else none := rfl

theorem exactPass_fst_cons_pos (b : Nat) (bs ss : List Nat) :
    (exactPass (b :: bs) (b :: ss)).1 = 0 :: (exactPass bs ss).1 := by
  simp [exactPass]

theorem exactPass_snd_cons_pos (b : Nat) (bs ss : List Nat) :
    (exactPass (b :: bs) (b :: ss)).2 = Match.Exact :: (exactPass bs ss).2 := by
  simp [exactPass]

theorem exactPass_fst_cons_neg (b s : Nat) (bs ss : List Nat) (h : s ≠ b) :
    (exactPass (b :: bs) (s :: ss)).1 = s :: (exactPass bs ss).1 := by
  simp [exactPass, h]

theorem exactPass_snd_cons_neg (b s : Nat) (bs ss : List Nat) (h : s ≠ b) :
    (exactPass (b :: bs) (s :: ss)).2 = Match.Wrong :: (exactPass bs ss).2 := by
  simp [exactPass, h]

theorem closePass_cons_wrong_some (b : Nat) (sol sol2 bs : List Nat)
    (ds : List Match) (h : consumeFirst b sol = some sol2) :
    closePass sol (b :: bs) (Match.Wrong :: ds)
      = Match.Close :: closePass sol2 bs ds := by
  simp [closePass, h]

theorem closePass_cons_wrong_none (b : Nat) (sol bs : List Nat)
    (ds : List Match) (h : consumeFirst b sol = none) :
    closePass sol (b :: bs) (Match.Wrong :: ds)
      = Match.Wrong :: closePass sol bs ds := by
  simp [closePass, h]

theorem closePass_cons_not_wrong (b : Nat) (d : Match) (sol bs : List Nat)
    (ds : List Match) (h : d ≠ Match.Wrong) :
    closePass sol (b :: bs) (d :: ds) = d :: closePass sol bs ds := by
  simp [closePass, h]

theorem exactPass_length_fst (g p : List Nat) :
    (exactPass g p).1.length = min g.length p.length := by
  induction g generalizing p with
  | nil => cases p <;> simp [exactPass]
  | cons b bs ih =>
    cases p with
    | nil => simp [exactPass]
    | cons s ss => simp only [exactPass]; split <;> simp [ih, Nat.succ_min_succ]

theorem exactPass_length_snd (g p : List Nat) :
    (exactPass g p).2.length = min g.length p.length := by
  induction g generalizing p with
  | nil => cases p <;> simp [exactPass]
  | cons b bs ih =>
    cases p with
    | nil => simp [exactPass]
    | cons s ss => simp only [exactPass]; split <;> simp [ih, Nat.succ_min_succ]

theorem closePass_length (sol bs : List Nat) (ds : List Match) :
    (closePass sol bs ds).length = min bs.length ds.length := by
  induction bs generalizing sol ds with
  | nil => cases ds <;> simp [closePass]
  | cons b bs ih =>
    cases ds with
    | nil => simp [closePass]
    | cons d ds =>
      simp only [closePass]
      split
      · cases hcf : consumeFirst b sol <;> simp [hcf, ih, Nat.succ_min_succ]
      · simp [ih, Nat.succ_min_succ]

theorem exactPass_snd_getElem (g : List Nat) :
    ∀ (p : List Nat) (i : Nat), i < g.length → i < p.length →
    (((exactPass g p).2)[i]? = some Match.Exact ↔ g[i]? = p[i]?) := by
  induction g with
  | nil => intro p i h1 h2; simp at h1
  | cons b bs ih =>
    intro p i h1 h2
    cases p with
    | nil => simp at h2
    | cons s ss =>
      by_cases hsb : s = b
      · cases i with
        | zero => simp [exactPass, hsb]
        | succ i =>
          simp only [exactPass, if_pos hsb, List.getElem?_cons_succ]
          exact ih ss i (by simpa using h1) (by simpa using h2)
      · cases i with
        | zero =>
          simp only [exactPass, if_neg hsb, List.getElem?_cons_zero]
          constructor
          · intro h; cases h
          · intro h; exact absurd (Option.some_inj.mp h).symm hsb
        | succ i =>
          simp only [exactPass, if_neg hsb, List.getElem?_cons_succ]
          exact ih ss i (by simpa using h1) (by simpa using h2)

theorem closePass_getElem_exact (bs : List Nat) :
    ∀ (sol : List Nat) (ds : List Match) (i : Nat),
    ((closePass sol bs ds)[i]? = some Match.Exact ↔
      (ds[i]? = some Match.Exact ∧ i < bs.length)) := by
  induction bs with
  | nil => intro sol ds i; simp [closePass]
  | cons b bs ih =>
    intro sol ds i
    cases ds with
    | nil => simp [closePass]
    | cons d ds =>
      by_cases hd : d = Match.Wrong
      · cases i with
        | zero =>
          simp only [closePass, if_pos hd]
          cases hcf : consumeFirst b sol <;> simp [hd]
        | succ i =>
          simp only [closePass, if_pos hd]
          cases hcf : consumeFirst b sol <;>
            simp [ih, Nat.succ_lt_succ_iff]
      · cases i with
        | zero => simp [closePass, if_neg hd]
        | succ i =>
          simp only [closePass, if_neg hd, List.getElem?_cons_succ]
          simp [ih, Nat.succ_lt_succ_iff]

theorem markedCount_nil_left (ds : List Match) (c : Nat) :
    markedCount [] ds c = 0 := by
  simp [markedCount]

theorem markedCount_nil_right (bs : List Nat) (c : Nat) :
    markedCount bs [] c = 0 := by
  simp [markedCount]

theorem markedCount_cons (b : Nat) (d : Match) (bs : List Nat) (ds : List Match)
    (c : Nat) :
    markedCount (b :: bs) (d :: ds) c
      = markedCount bs ds c + (if b = c ∧ d ≠ Match.Wrong then 1 else 0) := by
  simp [markedCount, List.zip_cons_cons, List.countP_cons]

theorem markedCount_zero_of_not_mem (bs : List Nat) (h0 : 0 ∉ bs) :
    ∀ ds : List Match, markedCount bs ds 0 = 0 := by
  induction bs with
  | nil => intro ds; simp [markedCount]
  | cons b bs ih =>
    intro ds
    have hb : b ≠ 0 := fun h => h0 (h ▸ List.mem_cons_self b bs)
    have hbs : 0 ∉ bs := fun h => h0 (List.mem_cons_of_mem b h)
    cases ds with
    | nil => exact markedCount_nil_right _ _
    | cons d ds =>
      rw [markedCount_cons, ih hbs ds, if_neg (by simp [hb])]

theorem consumeFirst_count_self (b : Nat) (hb : b ≠ 0) :
    ∀ sol sol2 : List Nat, consumeFirst b sol = some sol2 →
    List.count b sol = List.count b sol2 + 1 := by
  intro sol
  induction sol with
  | nil => intro sol2 h; simp [consumeFirst] at h
  | cons s ss ih =>
    intro sol2 h
    by_cases hsb : s = b
    · simp only [consumeFirst, if_pos hsb] at h
      obtain rfl := Option.some_inj.mp h
      subst hsb
      simp [List.count_cons, Ne.symm hb]
    · simp only [consumeFirst, if_neg hsb, Option.map_eq_some'] at h
      obtain ⟨t, ht, rfl⟩ := h
      simp [List.count_cons, hsb, ih t ht]

theorem consumeFirst_count_ne (b c : Nat) (hc : c ≠ 0) (hbc : b ≠ c) :
    ∀ sol sol2 : List Nat, consumeFirst b sol = some sol2 →
    List.count c sol2 = List.count c sol := by
  intro sol
  induction sol with
  | nil => intro sol2 h; simp [consumeFirst] at h
  | cons s ss ih =>
    intro sol2 h
    by_cases hsb : s = b
    · simp only [consumeFirst, if_pos hsb] at h
      obtain rfl := Option.some_inj.mp h
      subst hsb
      simp [List.count_cons, hbc, Ne.symm hc]
    · simp only [consumeFirst, if_neg hsb, Option.map_eq_some'] at h
      obtain ⟨t, ht, rfl⟩ := h
      simp [List.count_cons, ih t ht]

theorem exactPass_count (g : List Nat) (c : Nat) (hc : c ≠ 0) :
    ∀ p : List Nat, g.length = p.length →
    List.count c p
      = List.count c (exactPass g p).1 + markedCount g (exactPass g p).2 c := by
  induction g with
  | nil =>
    intro p hlen
    cases p with
    | nil => simp [exactPass, markedCount]
    | cons s ss => simp at hlen
  | cons b bs ih =>
    intro p hlen
    cases p with
    | nil => simp at hlen
    | cons s ss =>
      have hlen2 : bs.length = ss.length := by simpa using hlen
      have hih := ih ss hlen2
      by_cases hsb : s = b
      · subst hsb
        rw [exactPass_fst_cons_pos, exactPass_snd_cons_pos, markedCount_cons]
        by_cases hsc : s = c
        · rw [if_pos (by simp [hsc])]
          simp only [List.count_cons, beq_iff_eq]
          rw [if_pos hsc, if_neg (Ne.symm hc)]
          omega
        · rw [if_neg (by simp [hsc])]
          simp only [List.count_cons, beq_iff_eq]
          rw [if_neg hsc, if_neg (Ne.symm hc)]
          omega
      · rw [exactPass_fst_cons_neg b s bs ss hsb, exactPass_snd_cons_neg b s bs ss hsb,
          markedCount_cons, if_neg (by simp)]
        simp only [List.count_cons, beq_iff_eq]
        by_cases hsc : s = c
        · rw [if_pos hsc]
          omega
        · rw [if_neg hsc]
          omega

theorem closePass_markedCount (bs : List Nat) (c : Nat) (hc : c ≠ 0) :
    ∀ (sol : List Nat) (ds : List Match),
    markedCount bs (closePass sol bs ds) c
      ≤ markedCount bs ds c + List.count c sol := by
  induction bs with
  | nil => intro sol ds; simp [closePass, markedCount]
  | cons b bs ih =>
    intro sol ds
    cases ds with
    | nil => simp [closePass, markedCount]
    | cons d ds =>
      by_cases hd : d = Match.Wrong
      · subst hd
        cases hcf : consumeFirst b sol with
        | some sol2 =>
          rw [closePass_cons_wrong_some b sol sol2 bs ds hcf,
            markedCount_cons, markedCount_cons]
          by_cases hbc : b = c
          · subst hbc
            have h1 := consumeFirst_count_self b hc sol sol2 hcf
            have h2 := ih sol2 ds
            have e1 : (if b = b ∧ Match.Close ≠ Match.Wrong then 1 else 0) = 1 := by
              simp
            have e2 : (if b = b ∧ Match.Wrong ≠ Match.Wrong then 1 else 0) = 0 := by
              simp
            rw [e1, e2]
            omega
          · have h1 := consumeFirst_count_ne b c hc hbc sol sol2 hcf
            have h2 := ih sol2 ds
            rw [if_neg (by simp [hbc]), if_neg (by simp [hbc])]
            omega
        | none =>
          rw [closePass_cons_wrong_none b sol bs ds hcf,
            markedCount_cons, markedCount_cons, if_neg (by simp)]
          have := ih sol ds
          omega
      · rw [closePass_cons_not_wrong b d sol bs ds hd,
          markedCount_cons, markedCount_cons]
        have h2 := ih sol ds
        by_cases hbd : b = c ∧ d ≠ Match.Wrong
        · simp only [if_pos hbd]
          omega
        · simp only [if_neg hbd]
          omega

/-- C1 counterexample: over arbitrary equal-length strings the frequency
bound fails, because the close pass uses the byte 0 as its consumed
sentinel: a NUL byte in the guess can claim a position that an exact match
already consumed.  Guess bytes 97 0 against password bytes 97 98: position
1 carries guess byte 0 and is classified Close, yet 0 occurs zero times in
the password. -/
theorem check_guess_nul_cex :
    ([97, 0] : List Nat).length = ([97, 98] : List Nat).length ∧
    ¬ markedCount [97, 0] (check_guess [97, 0] [97, 98]).guess 0
        ≤ List.count 0 [97, 98] := by
  constructor
  · rfl
  · decide

/-- C1 (amended: the guess must not contain the byte 0, the consumed
sentinel of the algorithm, which no base64 digest ever contains): for
equal-length byte strings g and p where g has no 0 byte, check_guess
classifies every position with equal bytes as Exact, and for every byte
value c the number of positions classified Exact or Close whose guess byte
is c is at most the number of occurrences of c in p. -/
theorem check_guess_exact_and_frequency (g p : List Nat)
    (hlen : g.length = p.length) (h0 : 0 ∉ g) :
    (∀ i : Nat, i < g.length → g[i]? = p[i]? →
      ((check_guess g p).guess)[i]? = some Match.Exact)
    ∧ (∀ c : Nat, markedCount g (check_guess g p).guess c ≤ List.count c p) := by
  constructor
  · intro i hi hgp
    rw [check_guess_guess]
    refine (closePass_getElem_exact g _ _ i).mpr ⟨?_, hi⟩
    exact (exactPass_snd_getElem g p i hi (hlen ▸ hi)).mpr hgp
  · intro c
    rw [check_guess_guess]
    by_cases hc : c = 0
    · subst hc
      rw [markedCount_zero_of_not_mem g h0]
      exact Nat.zero_le _
    · have h1 := closePass_markedCount g c hc (exactPass g p).1 (exactPass g p).2
      have h2 := exactPass_count g c hc p hlen
      omega

theorem check_guess_exact_and_frequency_w :
    ([65, 66] : List Nat).length = ([66, 65] : List Nat).length
    ∧ (0 : Nat) ∉ ([65, 66] : List Nat)
    ∧ ((∀ i : Nat, i < ([65, 66] : List Nat).length →
          ([65, 66] : List Nat)[i]? = ([66, 65] : List Nat)[i]? →
          ((check_guess [65, 66] [66, 65]).guess)[i]? = some Match.Exact)
       ∧ (∀ c : Nat, markedCount [65, 66] (check_guess [65, 66] [66, 65]).guess c
            ≤ List.count c [66, 65])) :=
  ⟨rfl, by decide, check_guess_exact_and_frequency [65, 66] [66, 65] rfl (by decide)⟩

/-- C2: the guess digest ACCBX (bytes 65 67 67 66 88) scored against the
password digest ABCCD (bytes 65 66 67 67 68) yields Exact, Close, Exact,
Close, Wrong. -/
theorem check_guess_example :
    (check_guess [65, 67, 67, 66, 88] [65, 66, 67, 67, 68]).guess
      = [Match.Exact, Match.Close, Match.Exact, Match.Close, Match.Wrong] := by
  decide

/-- C3 counterexample: the walkthrough sequence Exact, Wrong, Exact,
Close, Wrong is not what check_guess produces on guess digest ACCBX
against password digest ABCCD; position 1 (guess byte C) is Close, since
the password byte C at index 3 is still unconsumed after the exact pass. -/
theorem check_guess_walkthrough_cex :
    ¬ (check_guess [65, 67, 67, 66, 88] [65, 66, 67, 67, 68]).guess
      = [Match.Exact, Match.Wrong, Match.Exact, Match.Close, Match.Wrong] := by
  decide

/-- C3 (amended: the step-by-step walkthrough must end in the sequence
Exact, Close, Exact, Close, Wrong, because after the exact pass the
unconsumed password bytes are B, C, D, not B, D): check_guess on guess
digest ACCBX against password digest ABCCD yields that sequence. -/
theorem check_guess_walkthrough_amended :
    (check_guess [65, 67, 67, 66, 88] [65, 66, 67, 67, 68]).guess
      = [Match.Exact, Match.Close, Match.Exact, Match.Close, Match.Wrong] := by
  decide

theorem check_guess_guess_length (g p : List Nat) (hlen : g.length = p.length) :
    (check_guess g p).guess.length = g.length := by
  rw [check_guess_guess, closePass_length, exactPass_length_snd]
  simp [hlen]

/-- C4: scoring a password digest against itself classifies every position
Exact and attaches a present, nonempty reveal token; scoring any other
equal-length guess digest against it yields no token. -/
theorem check_guess_self_and_ne (p g : List Nat) (hlen : g.length = p.length) :
    ((check_guess p p).guess.all (fun v => v = Match.Exact) = true
      ∧ ∃ s : String, (check_guess p p).key = some s ∧ s ≠ "")
    ∧ (g ≠ p → (check_guess g p).key = none) := by
  have hall : (check_guess p p).guess.all (fun v => v = Match.Exact) = true := by
    rw [List.all_eq_true]
    intro x hx
    rw [List.mem_iff_getElem?] at hx
    obtain ⟨i, hi⟩ := hx
    have hlen2 : (check_guess p p).guess.length = p.length :=
      check_guess_guess_length p p rfl
    have hilt : i < p.length := by
      obtain ⟨h1, _⟩ := List.getElem?_eq_some.mp hi
      omega
    have hex : ((check_guess p p).guess)[i]? = some Match.Exact := by
      rw [check_guess_guess]
      exact (closePass_getElem_exact p _ _ i).mpr
        ⟨(exactPass_snd_getElem p p i hilt hilt).mpr rfl, hilt⟩
    rw [hi] at hex
    obtain rfl := Option.some_inj.mp hex
    simp
  have hkey : (check_guess p p).key = some "31abhtykwu" := by
    rw [check_guess_key_eq, if_pos hall]
  refine ⟨⟨hall, "31abhtykwu", hkey, by decide⟩, ?_⟩
  intro hne
  have hnall : ¬ ((check_guess g p).guess.all (fun v => v = Match.Exact) = true) := by
    intro hall2
    apply hne
    apply List.ext_getElem?
    intro i
    by_cases hi : i < g.length
    · have hlen2 := check_guess_guess_length g p hlen
      have hilt : i < (check_guess g p).guess.length := by omega
      have hmem := List.getElem_mem hilt
      have hxe := (List.all_eq_true.mp hall2) _ hmem
      simp only [decide_eq_true_eq] at hxe
      have hg : ((check_guess g p).guess)[i]? = some Match.Exact := by
        rw [List.getElem?_eq_getElem hilt, hxe]
      rw [check_guess_guess] at hg
      have h2 := (closePass_getElem_exact g _ _ i).mp hg
      exact (exactPass_snd_getElem g p i hi (hlen ▸ hi)).mp h2.1
    · rw [List.getElem?_eq_none (by omega), List.getElem?_eq_none (by omega)]
  rw [check_guess_key_eq, if_neg hnall]

theorem check_guess_self_and_ne_w :
    ([66] : List Nat).length = ([65] : List Nat).length
    ∧ (((check_guess [65] [65]).guess.all (fun v => v = Match.Exact) = true
        ∧ ∃ s : String, (check_guess [65] [65]).key = some s ∧ s ≠ "")
       ∧ (([66] : List Nat) ≠ [65] → (check_guess [66] [65]).key = none)) :=
  ⟨rfl, check_guess_self_and_ne [65] [66] rfl⟩

/-- C10: whenever check_guess attaches a reveal token, the token is the
constant string 31abhtykwu, independent of the inputs. -/
theorem check_guess_key_constant (g p : List Nat) (s : String)
    (h : (check_guess g p).key = some s) : s = "31abhtykwu" := by
  rw [check_guess_key_eq] at h
  by_cases hall : (check_guess g p).guess.all (fun v => v = Match.Exact) = true
  · rw [if_pos hall] at h
    exact (Option.some_inj.mp h).symm
  · rw [if_neg hall] at h
    simp at h

theorem check_guess_key_constant_w :
    (check_guess [] []).key = some "31abhtykwu"
    ∧ "31abhtykwu" = "31abhtykwu" :=
  ⟨by decide, check_guess_key_constant [] [] "31abhtykwu" (by decide)⟩

/-! Helper lemmas on the store model. -/

theorem sget_supd_self (st : Store) (k : String) (v : RVal) :
    sget (supd st k v) k = some v := by
  induction st with
  | nil => simp [supd, sget]
  | cons e rest ih =>
    by_cases h : e.key = k
    · simp [supd, sget, h]
    · simp [supd, sget, h, ih]

theorem sget_supd_ne (st : Store) (k k2 : String) (v : RVal) (h : k ≠ k2) :
    sget (supd st k v) k2 = sget st k2 := by
  induction st with
  | nil => simp [supd, sget, h]
  | cons e rest ih =>
    by_cases he : e.key = k
    · have he2 : ¬ (k = k2) := h
      simp [supd, sget, he, he2, he ▸ he2]
    · simp only [supd, if_neg he, sget]
      split
      · rfl
      · exact ih

theorem sget_sdel (st : Store) (k k2 : String) :
    sget (sdel st k) k2 = if k2 = k then none else sget st k2 := by
  induction st with
  | nil => simp [sdel, sget]
  | cons e rest ih =>
    by_cases he : e.key = k
    · rw [show sdel (e :: rest) k = sdel rest k by simp [sdel, he], ih]
      by_cases hk : k2 = k
      · simp [hk]
      · simp [hk, sget, show ¬ (e.key = k2) from fun h2 => hk (by rw [← h2, he])]
    · rw [show sdel (e :: rest) k = e :: sdel rest k by simp [sdel, he]]
      by_cases hk : k2 = k
      · subst hk
        simp [sget, he, ih]
      · by_cases hek : e.key = k2
        · simp [sget, hek, hk]
        · simp [sget, hek, hk, ih]

theorem sincr_int (st : Store) (k : String) (n : Nat)
    (h : sget st k = some (RVal.int n)) :
    sincr st k = .ok (supd st k (RVal.int (n + 1)), n + 1) := by
  unfold sincr
  rw [h]

theorem countKey_ne_saltKey (id : String) : countKey id ≠ saltKey id := by
  intro h
  have h2 := congrArg String.length h
  simp [countKey, saltKey, String.length_append] at h2
  exact (by decide : ¬ (":guess_count".length = ":salt".length)) h2

theorem countKey_ne_passwordKey (id : String) : countKey id ≠ passwordKey id := by
  intro h
  have h2 := congrArg String.length h
  simp [countKey, passwordKey, String.length_append] at h2
  exact (by decide : ¬ (":guess_count".length = ":password".length)) h2

theorem saltKey_ne_passwordKey (id : String) : saltKey id ≠ passwordKey id := by
  intro h
  have h2 := congrArg String.length h
  simp [saltKey, passwordKey, String.length_append] at h2
  exact (by decide : ¬ (":salt".length = ":password".length)) h2

theorem make_guess_wrong_length (st : Store) (id : String) (guess : List Nat)
    (h : guess.length ≠ 8) :
    make_guess st id guess = (st, .error AppError.BadRequest) := by
  unfold make_guess
  rw [if_pos (by simpa [PASSWORD_LENGTH] using h)]

/-- C7: a guess whose byte length is not the fixed password length 8 is
rejected as BadRequest before any store command is issued; the store is
returned unchanged, so guess counter, salt and password digest keep their
values. -/
theorem make_guess_length_reject (st : Store) (id : String) (guess : List Nat)
    (h : guess.length ≠ 8) :
    make_guess st id guess = (st, .error AppError.BadRequest) :=
  make_guess_wrong_length st id guess h

theorem make_guess_length_reject_w :
    ([] : List Nat).length ≠ 8
    ∧ make_guess [] "i" [] = ([], .error AppError.BadRequest) :=
  ⟨by decide, make_guess_length_reject [] "i" [] (by decide)⟩

/-- C8 counterexample: create_game does not write a key named
game:<id>:password_digest; for id x and an empty store, that key is absent
from the store create_game produces (the digest lives under
game:x:password instead). -/
theorem create_game_digest_key_cex :
    sget (create_game [] "x" [97] [98]).1 "game:x:password_digest" = none := by
  decide

/-- C8 (amended: the third key is named game:<id>:password, not
game:<id>:password_digest): on a fresh session identifier create_game
writes exactly the three keys game:<id>:guess_count holding the integer 0,
game:<id>:salt holding the salt, and game:<id>:password holding the
password digest, each with a time-to-live of 86400 seconds. -/
theorem create_game_writes (id : String) (salt password : List Nat) :
    (create_game [] id salt password).1 =
      [⟨countKey id, RVal.int 0, some 86400⟩,
       ⟨saltKey id, RVal.str salt, some 86400⟩,
       ⟨passwordKey id, RVal.str (b64encode (md5 (password ++ salt))), some 86400⟩] := by
  have k1 := countKey_ne_saltKey id
  have k2 := countKey_ne_passwordKey id
  have k3 := saltKey_ne_passwordKey id
  simp [create_game, sset, GAME_EXPIRE, k1, k2, k3]

theorem md5_length (msg : List Nat) : (md5 msg).length = 16 := by
  simp [md5, wordLE]

theorem b64encode_length : ∀ l : List Nat, (b64encode l).length = (l.length + 2) / 3 * 4
  | [] => by simp [b64encode]
  | [_] => by simp [b64encode]
  | [_, _] => by simp [b64encode]
  | _ :: _ :: _ :: rest => by
    have ih := b64encode_length rest
    simp only [b64encode, List.length_cons, ih]
    omega

theorem digest_length (m : List Nat) : (b64encode (md5 m)).length = 24 := by
  rw [b64encode_length, md5_length]

theorem sincr_store_other (st : Store) (k : String) (st2 : Store) (n : Nat)
    (h : sincr st k = .ok (st2, n)) (k2 : String) (hk : k ≠ k2) :
    sget st2 k2 = sget st k2 := by
  unfold sincr at h
  cases hci : sget st k with
  | none =>
    simp only [hci, Except.ok.injEq, Prod.mk.injEq] at h
    rw [← h.1, sget_supd_ne st k k2 _ hk]
  | some v =>
    cases v with
    | int m =>
      simp only [hci, Except.ok.injEq, Prod.mk.injEq] at h
      rw [← h.1, sget_supd_ne st k k2 _ hk]
    | str s => simp only [hci] at h; cases h

theorem sdel_three_count (st1 : Store) (id : String) :
    sget (sdel (sdel (sdel st1 (countKey id)) (saltKey id)) (passwordKey id))
      (countKey id) = none := by
  rw [sget_sdel, if_neg (countKey_ne_passwordKey id), sget_sdel,
    if_neg (countKey_ne_saltKey id), sget_sdel, if_pos rfl]

theorem sdel_three_salt (st1 : Store) (id : String) :
    sget (sdel (sdel (sdel st1 (countKey id)) (saltKey id)) (passwordKey id))
      (saltKey id) = none := by
  rw [sget_sdel, if_neg (saltKey_ne_passwordKey id), sget_sdel, if_pos rfl]

theorem sdel_three_password (st1 : Store) (id : String) :
    sget (sdel (sdel (sdel st1 (countKey id)) (saltKey id)) (passwordKey id))
      (passwordKey id) = none := by
  rw [sget_sdel, if_pos rfl]

/-- C5: when the atomic increment takes the stored guess counter past 64,
make_guess deletes all three session keys, answers GameNotFound instead of
a score, and a subsequent get_game_info for the same identifier answers
GameNotFound as well. -/
theorem make_guess_ceiling (st : Store) (id : String) (guess : List Nat)
    (n : Nat) (salt pw : List Nat)
    (h8 : guess.length = 8)
    (hc : sget st (countKey id) = some (RVal.int n))
    (hs : sget st (saltKey id) = some (RVal.str salt))
    (hp : sget st (passwordKey id) = some (RVal.str pw))
    (hover : 64 < n + 1) :
    (make_guess st id guess).2 = .error AppError.GameNotFound
    ∧ sget (make_guess st id guess).1 (countKey id) = none
    ∧ sget (make_guess st id guess).1 (saltKey id) = none
    ∧ sget (make_guess st id guess).1 (passwordKey id) = none
    ∧ (get_game_info (make_guess st id guess).1 id).2
        = .error AppError.GameNotFound := by
  have hs1 : sget (supd st (countKey id) (RVal.int (n + 1))) (saltKey id)
      = some (RVal.str salt) := by
    rw [sget_supd_ne st _ _ _ (countKey_ne_saltKey id)]; exact hs
  have hp1 : sget (supd st (countKey id) (RVal.int (n + 1))) (passwordKey id)
      = some (RVal.str pw) := by
    rw [sget_supd_ne st _ _ _ (countKey_ne_passwordKey id)]; exact hp
  have hmg : make_guess st id guess =
      (sdel (sdel (sdel (supd st (countKey id) (RVal.int (n + 1))) (countKey id))
          (saltKey id)) (passwordKey id),
       .error AppError.GameNotFound) := by
    unfold make_guess
    rw [if_neg (by simp [PASSWORD_LENGTH, h8])]
    simp only [sincr_int st (countKey id) n hc, hs1, hp1]
    rw [if_pos (by simpa [MAX_GUESS] using hover)]
  rw [hmg]
  refine ⟨rfl, sdel_three_count _ id, sdel_three_salt _ id,
    sdel_three_password _ id, ?_⟩
  unfold get_game_info
  rw [sdel_three_count _ id, sdel_three_salt _ id]

theorem make_guess_ceiling_w :
    ([0, 0, 0, 0, 0, 0, 0, 0] : List Nat).length = 8
    ∧ sget [⟨countKey "i", RVal.int 64, some 9⟩, ⟨saltKey "i", RVal.str [], some 9⟩,
        ⟨passwordKey "i", RVal.str [], some 9⟩] (countKey "i") = some (RVal.int 64)
    ∧ (64 : Nat) < 64 + 1
    ∧ ((make_guess [⟨countKey "i", RVal.int 64, some 9⟩,
          ⟨saltKey "i", RVal.str [], some 9⟩, ⟨passwordKey "i", RVal.str [], some 9⟩]
          "i" [0, 0, 0, 0, 0, 0, 0, 0]).2 = .error AppError.GameNotFound
        ∧ sget (make_guess [⟨countKey "i", RVal.int 64, some 9⟩,
            ⟨saltKey "i", RVal.str [], some 9⟩, ⟨passwordKey "i", RVal.str [], some 9⟩]
            "i" [0, 0, 0, 0, 0, 0, 0, 0]).1 (countKey "i") = none
        ∧ sget (make_guess [⟨countKey "i", RVal.int 64, some 9⟩,
            ⟨saltKey "i", RVal.str [], some 9⟩, ⟨passwordKey "i", RVal.str [], some 9⟩]
            "i" [0, 0, 0, 0, 0, 0, 0, 0]).1 (saltKey "i") = none
        ∧ sget (make_guess [⟨countKey "i", RVal.int 64, some 9⟩,
            ⟨saltKey "i", RVal.str [], some 9⟩, ⟨passwordKey "i", RVal.str [], some 9⟩]
            "i" [0, 0, 0, 0, 0, 0, 0, 0]).1 (passwordKey "i") = none
        ∧ (get_game_info (make_guess [⟨countKey "i", RVal.int 64, some 9⟩,
            ⟨saltKey "i", RVal.str [], some 9⟩, ⟨passwordKey "i", RVal.str [], some 9⟩]
            "i" [0, 0, 0, 0, 0, 0, 0, 0]).1 "i").2 = .error AppError.GameNotFound) :=
  ⟨rfl, by decide, by decide,
    make_guess_ceiling _ "i" _ 64 [] [] rfl (by decide) (by decide) (by decide)
      (by decide)⟩

/-- C6: a guess digest is the base64 encoding of an MD5 digest and
therefore always has the same length, 24, as the password digest stored by
create_game under the same scheme; consequently make_guess can never take
its defensive BadRequest branch once the guess passed the length-8 gate,
so the length assertion of check_guess is satisfied on every call. -/
theorem guess_digest_length_matches (st : Store) (id : String)
    (guess salt password psalt x : List Nat)
    (h8 : guess.length = 8)
    (hp : sget st (passwordKey id) = some (RVal.str (b64encode (md5 x)))) :
    (b64encode (md5 (guess ++ salt))).length
      = (b64encode (md5 (password ++ psalt))).length
    ∧ (make_guess st id guess).2 ≠ .error AppError.BadRequest := by
  refine ⟨by rw [digest_length, digest_length], ?_⟩
  unfold make_guess
  rw [if_neg (by simp [PASSWORD_LENGTH, h8])]
  cases hs2 : sincr st (countKey id) with
  | error e => simp
  | ok pr =>
    obtain ⟨st1, cnt⟩ := pr
    have hpw : sget st1 (passwordKey id) = some (RVal.str (b64encode (md5 x))) := by
      rw [sincr_store_other st (countKey id) st1 cnt hs2 (passwordKey id)
        (countKey_ne_passwordKey id)]
      exact hp
    rcases hsalt : sget st1 (saltKey id) with _ | v
    · simp [hsalt]
    · cases v with
      | int m => simp [hsalt, hpw]
      | str s =>
        simp only [hsalt, hpw]
        by_cases hcm : cnt > MAX_GUESS
        · simp [hcm]
        · simp [hcm, digest_length]

theorem guess_digest_length_matches_w :
    ([1, 2, 3, 4, 5, 6, 7, 8] : List Nat).length = 8
    ∧ sget [⟨passwordKey "i", RVal.str (b64encode (md5 [])), none⟩] (passwordKey "i")
        = some (RVal.str (b64encode (md5 [])))
    ∧ ((b64encode (md5 ([1, 2, 3, 4, 5, 6, 7, 8] ++ [9]))).length
        = (b64encode (md5 ([7] ++ [8]))).length
       ∧ (make_guess [⟨passwordKey "i", RVal.str (b64encode (md5 [])), none⟩]
            "i" [1, 2, 3, 4, 5, 6, 7, 8]).2 ≠ .error AppError.BadRequest) :=
  ⟨rfl, rfl,
    guess_digest_length_matches [⟨passwordKey "i", RVal.str (b64encode (md5 [])), none⟩]
      "i" [1, 2, 3, 4, 5, 6, 7, 8] [9] [7] [8] [] rfl rfl⟩

/-- C9: get_game_info issues no store write, and make_guess either leaves
the stored guess counter unchanged (the length-rejected guess), replaces
it by exactly its successor, or deletes the whole session (all three
keys); it never stores a smaller value for an existing session. -/
theorem guess_count_monotone (st : Store) (id : String) (guess : List Nat)
    (n : Nat) (hc : sget st (countKey id) = some (RVal.int n)) :
    (get_game_info st id).1 = st
    ∧ (sget (make_guess st id guess).1 (countKey id) = some (RVal.int n)
       ∨ sget (make_guess st id guess).1 (countKey id) = some (RVal.int (n + 1))
       ∨ (sget (make_guess st id guess).1 (countKey id) = none
          ∧ sget (make_guess st id guess).1 (saltKey id) = none
          ∧ sget (make_guess st id guess).1 (passwordKey id) = none)) := by
  constructor
  · unfold get_game_info
    rcases sget st (countKey id) with _ | v
    · rcases sget st (saltKey id) with _ | w
      · rfl
      · cases w <;> rfl
    · rcases hw : sget st (saltKey id) with _ | w
      · cases v <;> simp [hw]
      · cases v <;> cases w <;> simp [hw]
  · by_cases h8 : guess.length = 8
    · have hself : sget (supd st (countKey id) (RVal.int (n + 1))) (countKey id)
          = some (RVal.int (n + 1)) := sget_supd_self st _ _
      unfold make_guess
      rw [if_neg (by simp [PASSWORD_LENGTH, h8])]
      simp only [sincr_int st (countKey id) n hc]
      rcases hsalt : sget (supd st (countKey id) (RVal.int (n + 1))) (saltKey id)
        with _ | v
      · simp only [hsalt]
        exact Or.inr (Or.inl hself)
      · rcases hpw : sget (supd st (countKey id) (RVal.int (n + 1))) (passwordKey id)
          with _ | w
        · cases v <;> simp only [hsalt, hpw] <;> exact Or.inr (Or.inl hself)
        · cases v with
          | int m => cases w <;> simp only [hsalt, hpw] <;> exact Or.inr (Or.inl hself)
          | str s =>
            cases w with
            | int m2 =>
              simp only [hsalt, hpw]
              exact Or.inr (Or.inl hself)
            | str pwd =>
              simp only [hsalt, hpw]
              by_cases hcm : n + 1 > MAX_GUESS
              · rw [if_pos hcm]
                exact Or.inr (Or.inr ⟨sdel_three_count _ id, sdel_three_salt _ id,
                  sdel_three_password _ id⟩)
              · rw [if_neg hcm]
                by_cases hl2 : (b64encode (md5 (guess ++ s))).length ≠ pwd.length
                · simp only [if_pos hl2]
                  exact Or.inr (Or.inl hself)
                · simp only [if_neg hl2]
                  exact Or.inr (Or.inl hself)
    · rw [make_guess_wrong_length st id guess h8]
      exact Or.inl hc

theorem guess_count_monotone_w :
    sget [⟨countKey "i", RVal.int 3, some 9⟩] (countKey "i") = some (RVal.int 3)
    ∧ ((get_game_info [⟨countKey "i", RVal.int 3, some 9⟩] "i").1
        = [⟨countKey "i", RVal.int 3, some 9⟩]
       ∧ (sget (make_guess [⟨countKey "i", RVal.int 3, some 9⟩] "i" []).1 (countKey "i")
            = some (RVal.int 3)
          ∨ sget (make_guess [⟨countKey "i", RVal.int 3, some 9⟩] "i" []).1 (countKey "i")
            = some (RVal.int (3 + 1))
          ∨ (sget (make_guess [⟨countKey "i", RVal.int 3, some 9⟩] "i" []).1 (countKey "i")
              = none
             ∧ sget (make_guess [⟨countKey "i", RVal.int 3, some 9⟩] "i" []).1 (saltKey "i")
              = none
             ∧ sget (make_guess [⟨countKey "i", RVal.int 3, some 9⟩] "i" []).1
                (passwordKey "i") = none))) :=
  ⟨by decide, guess_count_monotone [⟨countKey "i", RVal.int 3, some 9⟩] "i" [] 3 (by decide)⟩

end Passwordle
